import Mathlib

/-!
Verification development for the schema-to-type core of the repository
(`schema2type.ts`): a recursive translator from JSON-Schema/OpenAPI schema
nodes to TypeScript type-declaration strings.  The definitions below are a
shallow embedding of the source functions `comment`, `parseSchema`,
`parseObject`, `parseArray`, `parseEnum`, `convertToType` and
`jsonSchema2TsStr`.  Recursion in the source is unbounded (it recurses into
resolved references), so every recursive function here takes an explicit
fuel argument; exhausting the fuel yields `none`.  The external collaborators
(the reference resolver of `./openapi` and the pretty-printer of `../utils`)
are not part of the given sources and are modelled from the specification.
-/

namespace Schema2Type

/-! ## String utilities modelling the JavaScript string operations used by
the source.  They are written over `List Char` so that all theorems reduce
inside the kernel. -/

/-- Strip an expected leading run of characters: `stripPre p s` is `some r`
when `s = p ++ r`, and `none` otherwise (models a prefix test). -/
def stripPre : List Char → List Char → Option (List Char)
  | [], s => some s
  | _ :: _, [] => none
  | p :: ps, c :: cs => if p = c then stripPre ps cs else none

/-- Splitter on a non-empty separator (head `c0`, tail `sep`), scanning left
to right exactly like JavaScript `String.prototype.split` with a non-empty
string separator.  `acc` accumulates the current field in reverse.  The
fuel argument only serves structural recursion: each step consumes at least
one character, so a fuel of the input length plus one never runs out. -/
def splitCore (c0 : Char) (sep : List Char) : Nat → List Char → List Char → List (List Char)
  | 0, s, acc => [acc.reverse ++ s]
  | _ + 1, [], acc => [acc.reverse]
  | fuel + 1, c :: cs, acc =>
    match stripPre (c0 :: sep) (c :: cs) with
    | some rest => acc.reverse :: splitCore c0 sep fuel rest []
    | none => splitCore c0 sep fuel cs (c :: acc)

/-- Model of JavaScript `s.split(sep)` for a non-empty `sep` (the source only
splits on `"\n"`); an empty separator returns the string unsplit. -/
def jsSplit (sep s : String) : List String :=
  match sep.data with
  | [] => [s]
  | c0 :: rest => (splitCore c0 rest (s.data.length + 1) s.data []).map fun l => ⟨l⟩

/-- Model of JavaScript `Array.prototype.join(sep)`. -/
def jsJoin (sep : String) : List String → String
  | [] => ""
  | [x] => x
  | x :: y :: rest => x ++ sep ++ jsJoin sep (y :: rest)

/-- Whitespace set used by the model of JavaScript `String.prototype.trim`. -/
def isWsChar (c : Char) : Bool :=
  c = ' ' || c = '\n' || c = '\t' || c = '\r'

/-- Model of JavaScript `s.trim()`. -/
def jsTrim (s : String) : String :=
  ⟨((s.data.dropWhile isWsChar).reverse.dropWhile isWsChar).reverse⟩

/-- Model of JavaScript `s.startsWith(p)`. -/
def jsStartsWith (p s : String) : Bool :=
  (stripPre p.data s.data).isSome

/-! ## Data model: schema nodes as the source consumes them.

The source probes optional fields of `OpenAPIV3_1.SchemaObject |
ReferenceObject` values (duck typing).  A `Node` is either a reference
object (just its `$ref` pointer string) or a schema object carrying the
fields the source reads: `type`, `enum`, `oneOf`, `properties`, `required`,
`items`, `title`, `description`, `deprecated`.  `items` is either a list of
schemas (the tuple form the source detects with `Array.isArray`) or a
single schema. -/

/-- A JSON literal value, as can appear in an `enum` list. -/
inductive JsonValue where
  | str (s : String)
  | num (n : Int)
  | bool (b : Bool)
  | null
deriving DecidableEq

inductive Node where
  | ref (pointer : String)
  | obj (type : Option String)
        (enum : Option (List JsonValue))
        (oneOf : Option (List Node))
        (properties : Option (List (String × Node)))
        (required : Option (List String))
        (items : Option (Sum (List Node) Node))
        (title : Option String)
        (description : Option String)
        (deprecated : Bool)

/-- Field access `schema.type`; a reference object has no such field. -/
def Node.type : Node → Option String
  | .ref _ => none
  | .obj t _ _ _ _ _ _ _ _ => t

/-- Field access `schema.enum`. -/
def Node.enum : Node → Option (List JsonValue)
  | .ref _ => none
  | .obj _ e _ _ _ _ _ _ _ => e

/-- Field access `schema.oneOf`. -/
def Node.oneOf : Node → Option (List Node)
  | .ref _ => none
  | .obj _ _ o _ _ _ _ _ _ => o

/-- Field access `schema.properties`. -/
def Node.properties : Node → Option (List (String × Node))
  | .ref _ => none
  | .obj _ _ _ p _ _ _ _ _ => p

/-- Field access `schema.required`. -/
def Node.required : Node → Option (List String)
  | .ref _ => none
  | .obj _ _ _ _ r _ _ _ _ => r

/-- Field access `schema.items`. -/
def Node.items : Node → Option (Sum (List Node) Node)
  | .ref _ => none
  | .obj _ _ _ _ _ i _ _ _ => i

/-- Field access `schema.title`. -/
def Node.title : Node → Option String
  | .ref _ => none
  | .obj _ _ _ _ _ _ t _ _ => t

/-- Field access `schema.description`. -/
def Node.description : Node → Option String
  | .ref _ => none
  | .obj _ _ _ _ _ _ _ d _ => d

/-- Field access `schema.deprecated` (absent reads as `false`). -/
def Node.deprecated : Node → Bool
  | .ref _ => false
  | .obj _ _ _ _ _ _ _ _ d => d

/-- An OpenAPI document, for the purposes of reference resolution: a table
from `$ref` pointer strings to the schema nodes they designate. -/
def OApiDoc := List (String × Node)

/-- Modelled from the spec: `findBy$ref` of `./openapi` is not among the
given sources.  Per §6 the Reference Resolver is a deterministic lookup of
the pointer in the document, whose failure on an invalid pointer propagates;
it is modelled as an association-list lookup. -/
def findByRef (doc : OApiDoc) (pointer : String) : Option Node :=
  match doc with
  | [] => none
  | (p, n) :: rest => if p = pointer then some n else findByRef rest pointer

/-- Modelled from the spec: `get$refName` of `./openapi` is not among the
given sources.  Per §6 it maps a pointer to a short display name; it is
modelled as the last `/`-separated segment of the pointer (so
`#/components/schemas/A` displays as `A`). -/
def getRefName (pointer : String) : String :=
  match (jsSplit "/" pointer).getLast? with
  | some s => s
  | none => pointer

/-! ## Model of JSON.stringify on literal values (used by `parseEnum`). -/

/-- JSON string escaping (the subset relevant to the model: quote,
backslash and newline; other characters pass through). -/
def escapeJsonChar (c : Char) : List Char :=
  if c = '"' then ['\\', '"']
  else if c = '\\' then ['\\', '\\']
  else if c = '\n' then ['\\', 'n']
  else [c]

/-- Model of `JSON.stringify` restricted to literal values. -/
def jsStringify : JsonValue → String
  | .str s => "\"" ++ (⟨s.data.flatMap escapeJsonChar⟩ : String) ++ "\""
  | .num n => toString n
  | .bool b => if b then "true" else "false"
  | .null => "null"

/-! ## Comment Builder (source function `comment`).

The source returns a stateful accumulator with `add`/`end`; a run of the
accumulator is fully determined by the style and the ordered list of
fragments added, so it is modelled as a function of those. -/

/-- The per-fragment transformation applied by `comment` before emission:
identity in `line` style; in `docment` style a fragment starting with
`[title]` becomes the rest of its first line, trimmed, followed by a
separator rule, and the exact fragment `[deprecated]` becomes the
annotation tag. -/
def transformeText (style : String) (text : String) : String :=
  if style = "line" then text
  else if jsStartsWith "[title]" text then
    -- models /\x5btitle\x5d(.*)/ : capture to the end of the first line
    jsTrim ⟨(text.data.drop 7).takeWhile (fun c => c ≠ '\n')⟩ ++ "\n\x2d\x2d\x2d"
  else if text = "[deprecated]" then "@deprecated"
  else text

/-- Source function `comment`, as a function from the style and the ordered
fragment list to the text produced by `end()` after `add`ing each fragment
in order.  Empty fragment list yields the empty string. -/
def comment (style : String) (fragments : List String) : String :=
  let preText := if style = "docment" then " *" else "//"
  let per := fun (t : String) =>
    jsJoin "\n" ((jsSplit "\n" (transformeText style t)).map (fun l => preText ++ " " ++ l))
  match fragments with
  | [] => ""
  | _ :: _ =>
    let startText := if style = "docment" then "/**\n" else ""
    let endText := if style = "docment" then "\n */\n" else "\n"
    startText ++ jsJoin "\n" (fragments.map per) ++ endText

/-! ## Schema-to-Type Engine.

`Schema2TypeOptions` mirrors the source interface of the same name; the
optional `on$Ref` observer is passed separately (as `onRef` below) so that
the engine can be instantiated with a pure observer, a logging observer, or
the Reference Collector's stateful callback.  The observer threads a state
of type `σ` and may fail (`none`), modelling a propagating failure inside
the callback. -/

structure Schema2TypeOptions where
  deep : Bool
  defaultType : Option String
  commentStyle : Option String
  preText : Option String

/-- Source function `parseEnum`: each enum value serialized with
`JSON.stringify`, joined by a pipe separator. -/
def parseEnum (vs : List JsonValue) : String :=
  jsJoin " | " (vs.map jsStringify)

/-- The comment fragments built for one object property: title marker,
description, required marker, deprecated marker, in this order (`value` is
the property schema, resolved through a reference if necessary). -/
def propFragments (value : Node) (isRequired : Bool) : List String :=
  (match value.title with | some t => ["[title] " ++ t] | none => []) ++
  (match value.description with | some d => [d] | none => []) ++
  (if isRequired then ["[required]"] else []) ++
  (if value.deprecated then ["[deprecated]"] else [])

/-- The array-element wrapping rule of `parseArray` applied to the resolved
item schema `i` and its rendered type `t`: `object` items wrap as
`Array<T>`, `array` items as `T[]`, items with `oneOf` or `enum` as
`(T)[]`, all others as `T[]`. -/
def arrayWrap (i : Node) (t : String) : String :=
  if i.type = some "object" then "Array<" ++ t ++ ">"
  else if i.type = some "array" then t ++ "[]"
  else if i.oneOf.isSome || i.enum.isSome then "(" ++ t ++ ")[]"
  else t ++ "[]"

section Engine

variable {σ : Type} (onRef : String → σ → Option σ) (doc : OApiDoc) (cfg : Schema2TypeOptions)

mutual

/-- Source function `parseSchema`: reference dispatch.  On a reference the
observer is notified first; with `deep` unset the display name is returned,
otherwise the reference is resolved and parsing continues on the resolved
node. -/
def parseSchema : Nat → Node → σ → Option (String × σ)
  | 0, _, _ => none
  | fuel + 1, .ref r, st =>
    match onRef r st with
    | none => none
    | some st1 =>
      if cfg.deep then
        match findByRef doc r with
        | none => none
        | some node => parseSchemaBody fuel node st1
      else some (getRefName r, st1)
  | fuel + 1, node, st => parseSchemaBody fuel node st

/-- Source function `parseSchema`, after the reference step: enum dispatch
first, then the switch on the declared `type`, then the default branch
(`oneOf` union, else the fallback). -/
def parseSchemaBody : Nat → Node → σ → Option (String × σ)
  | 0, _, _ => none
  | fuel + 1, node, st =>
    match node.enum with
    | some vs => some (parseEnum vs, st)
    | none =>
      if node.type = some "object" then parseObject fuel node st
      else if node.type = some "array" then parseArray fuel node st
      else if node.type = some "string" then some ("string", st)
      else if node.type = some "number" ∨ node.type = some "integer" then some ("number", st)
      else if node.type = some "boolean" then some ("boolean", st)
      else if node.type = some "null" then some ("null", st)
      else
        match node.oneOf with
        | some branches =>
          match parseList fuel branches st with
          | none => none
          | some (types, st1) => some (jsJoin " | " types, st1)
        | none =>
          match node.type with
          | some t =>
            -- (schema.type || config.defaultType) ?? 'unknown' : a non-empty
            -- unrecognized type string is returned verbatim
            some (if t = "" then (cfg.defaultType.getD "unknown") else t, st)
          | none => some (cfg.defaultType.getD "unknown", st)

/-- The recursive mapping of `parseSchema` over a list of schemas (used for
`oneOf` branches and tuple-form `items`), threading the observer state. -/
def parseList : Nat → List Node → σ → Option (List String × σ)
  | 0, _, _ => none
  | _ + 1, [], st => some ([], st)
  | fuel + 1, x :: xs, st =>
    match parseSchema fuel x st with
    | none => none
    | some (t, st1) =>
      match parseList fuel xs st1 with
      | none => none
      | some (ts, st2) => some (t :: ts, st2)

/-- Source function `parseObject`: renders the brace-delimited record; a
record with no properties renders as the literal `object`. -/
def parseObject : Nat → Node → σ → Option (String × σ)
  | 0, _, _ => none
  | fuel + 1, node, st =>
    let req := node.required.getD []
    match parseProps fuel req (node.properties.getD []) st with
    | none => none
    | some (propLines, st1) =>
      let lines := "\x7b" :: propLines ++ ["\x7d"]
      some (if 2 < lines.length then jsJoin "\n" lines else "object", st1)

/-- The property loop of `parseObject`: for each property, in order, the
property schema is resolved for metadata, its type is rendered by
`parseSchema` (on the unresolved value, so a reference notifies the
observer), the documentation comment is built, and each physical line is
indented by one space. -/
def parseProps : Nat → List String → List (String × Node) → σ → Option (List String × σ)
  | 0, _, _, _ => none
  | _ + 1, _, [], st => some ([], st)
  | fuel + 1, req, (key, valueOrigin) :: rest, st =>
    let value? := match valueOrigin with
      | .ref r => findByRef doc r
      | v => some v
    match value? with
    | none => none
    | some value =>
      match parseSchema fuel valueOrigin st with
      | none => none
      | some (type, st1) =>
        let optionalFlag := if req.contains key then "" else "?"
        let docStr := comment (cfg.commentStyle.getD "line") (propFragments value (req.contains key))
        let valueStr := docStr ++ key ++ optionalFlag ++ ": " ++ type ++ ";"
        match parseProps fuel req rest st1 with
        | none => none
        | some (lines, st2) =>
          some ((jsSplit "\n" valueStr).map (fun l => " " ++ l) ++ lines, st2)

/-- Source function `parseArray`: tuple-form `items` renders each element
(the mapped array is coerced into the template literal, so JavaScript joins
the pieces with a comma); single-schema `items` that is a reference is
observed and left shallow when `deep` is unset, and resolved otherwise;
absent `items` renders as the empty tuple. -/
def parseArray : Nat → Node → σ → Option (String × σ)
  | 0, _, _ => none
  | fuel + 1, node, st =>
    match node.items with
    | none => some ("[]", st)
    | some (.inl elems) =>
      match parseList fuel elems st with
      | none => none
      | some (types, st1) =>
        some ("[\n" ++ jsJoin "," (types.map (fun t => t ++ ",\n")) ++ "\n]", st1)
    | some (.inr item) =>
      match item with
      | .ref r =>
        if cfg.deep then
          match findByRef doc r with
          | none => none
          | some resolved => parseArrayItem fuel resolved st
        else
          match onRef r st with
          | none => none
          | some st1 => some (getRefName r ++ "[]", st1)
      | i => parseArrayItem fuel i st

/-- The single-item tail of `parseArray`: render the (already resolved)
item and choose the wrapping by the item's shape. -/
def parseArrayItem : Nat → Node → σ → Option (String × σ)
  | 0, _, _ => none
  | fuel + 1, item, st =>
    match parseSchema fuel item st with
    | none => none
    | some (t, st1) => some (arrayWrap item t, st1)

end

end Engine

/-! ## Declaration Formatter (source function `convertToType`).

The external pretty-printer (`format` of `../utils`) is a black box; it is
modelled as a parameter `fmt : String → String` (the awaited result of
`format(text, \x7bsemi: false\x7d)`). -/

/-- The extraction step of `convertToType`: the regex match
`type Ts = (.*)` with the dot-all flag, i.e. everything after the first
occurrence of the pattern text, or `none` when the pattern does not occur. -/
def extractTypeTs (s : String) : Option String :=
  match jsSplit "type Ts = " s with
  | _ :: rest :: more => some (jsJoin "type Ts = " (rest :: more))
  | _ => none

/-- Source function `convertToType`: an absent schema yields the configured
default type; otherwise the engine's output is wrapped as `type Ts = ...`,
passed through the pretty-printer, re-extracted (an unmatched pattern
yields the empty string via the `?? ''` default), trimmed, and every line
but the first is prefixed with `preText`.  A `preText` left unset is
coerced to the text `undefined` by JavaScript string concatenation. -/
def convertToType {σ : Type} (fmt : String → String) (onRef : String → σ → Option σ)
    (doc : OApiDoc) (cfg : Schema2TypeOptions)
    (fuel : Nat) (schemaOrigin : Option Node) (st : σ) : Option (String × σ) :=
  match schemaOrigin with
  | none => some (cfg.defaultType.getD "unknown", st)
  | some sch =>
    match parseSchema onRef doc cfg fuel sch st with
    | none => none
    | some (tsStr, st1) =>
      let tsStrFormat := fmt ("type Ts = " ++ tsStr)
      let resultFormat := (extractTypeTs tsStrFormat).getD ""
      let tsStrArr := jsSplit "\n" (jsTrim resultFormat)
      let out := match tsStrArr with
        | [] => ""
        | l :: ls => jsJoin "\n" (l :: ls.map (fun line => cfg.preText.getD "undefined" ++ line))
      some (out, st1)

/-! ## Reference Collector (source function `jsonSchema2TsStr`).

Its state is the memo (`map : Map<string, string>`) plus the history of
reference-sink (`on$RefTsStr`) invocations; each sink invocation is
recorded together with the memo contents at the moment of the call, so that
call-time properties can be stated about it. -/

/-- One `on$RefTsStr` invocation: the display name and declaration text
passed to the sink, and a snapshot of the memo at the moment of the call. -/
structure SinkEvent where
  name : String
  text : String
  memoAt : List (String × String)
deriving DecidableEq

/-- The Reference Collector's state: the memo and the sink-call history. -/
structure CState where
  memo : List (String × String)
  events : List SinkEvent
deriving DecidableEq

/-- Model of `Map.prototype.get` (first binding wins). -/
def memoLookup : List (String × String) → String → Option String
  | [], _ => none
  | (k, v) :: rest, key => if k = key then some v else memoLookup rest key

/-- Model of `Map.prototype.set`: replace an existing binding in place, or
append a new one. -/
def memoSet : List (String × String) → String → String → List (String × String)
  | [], key, val => [(key, val)]
  | (k, v) :: rest, key, val =>
    if k = key then (k, val) :: rest else (k, v) :: memoSet rest key val

/-- The source interface `JsonSchema2TsOptions`; `exportFlag` models the
`export` field, and `hasSink` models whether the caller supplied an
`on$RefTsStr` callback. -/
structure JsonSchema2TsOptions where
  exportFlag : Bool
  deep : Bool
  hasSink : Bool

/-- The engine configuration that `jsonSchema2TsStr` passes to
`convertToType`: the caller's `deep`, default type `unknown`, `docment`
comments, empty `preText`. -/
def collectorConfig (opts : JsonSchema2TsOptions) : Schema2TypeOptions :=
  ⟨opts.deep, some "unknown", some "docment", some ""⟩

/-- The `on$Ref` callback that `jsonSchema2TsStr` installs, with the
recursive call abstracted as `recur`: without a sink it does nothing; with
a sink it computes the display name, passes the cached text to the sink if
the name is in the memo, and otherwise recursively renders the resolved
schema, stores the result in the memo, and then notifies the sink. -/
def collectorOnRef (doc : OApiDoc) (opts : JsonSchema2TsOptions)
    (recur : Node → String → CState → Option (String × CState)) :
    String → CState → Option CState := fun r s =>
  if opts.hasSink then
    let nm := getRefName r
    match memoLookup s.memo nm with
    | some cached => some ⟨s.memo, s.events ++ [⟨nm, cached, s.memo⟩]⟩
    | none =>
      match findByRef doc r with
      | none => none
      | some resolved =>
        match recur resolved nm s with
        | none => none
        | some (result, s1) =>
          let memo1 := memoSet s1.memo nm result
          some ⟨memo1, s1.events ++ [⟨nm, result, memo1⟩]⟩
  else some s

/-- Source function `jsonSchema2TsStr`: renders one named declaration via
`convertToType` with the collector's `on$Ref` callback installed, then
wraps the result as an `interface` declaration, prefixed with `export `
when requested. -/
def jsonSchema2TsStr (fmt : String → String) (doc : OApiDoc) (opts : JsonSchema2TsOptions) :
    Nat → Node → String → CState → Option (String × CState)
  | 0, _, _, _ => none
  | fuel + 1, schema, name, st =>
    let onRef := collectorOnRef doc opts
      (fun nd nm s => jsonSchema2TsStr fmt doc opts fuel nd nm s)
    match convertToType fmt onRef doc (collectorConfig opts) fuel (some schema) st with
    | none => none
    | some (tsStr, st1) =>
      let decl := "interface " ++ name ++ " " ++ tsStr
      some (if opts.exportFlag then "export " ++ decl else decl, st1)

/-! ## Runners used by the theorems: the engine with a no-op observer
(pure rendering) and with a logging observer (`on$Ref` invocation order). -/

/-- `typeOf`: the engine's rendered type expression, with no observer
installed (the optional `on$Ref` absent). -/
def typeOf (fuel : Nat) (x : Node) (doc : OApiDoc) (cfg : Schema2TypeOptions) : Option String :=
  (parseSchema (σ := Unit) (fun _ st => some st) doc cfg fuel x ()).map (fun p => p.1)

/-- The observer that records every `on$Ref` invocation, in order, as the
raw `$ref` pointer it was passed. -/
def logRef : String → List String → Option (List String) := fun r log => some (log ++ [r])

/-- The engine run under the logging observer: rendered text together with
the final `on$Ref` invocation log. -/
def typeOfLog (fuel : Nat) (x : Node) (doc : OApiDoc) (cfg : Schema2TypeOptions)
    (log : List String) : Option (String × List String) :=
  parseSchema logRef doc cfg fuel x log

/-- `convertToType` with no observer installed. -/
def convertToTypeRun (fmt : String → String) (fuel : Nat) (schemaOrigin : Option Node)
    (doc : OApiDoc) (cfg : Schema2TypeOptions) : Option String :=
  (convertToType (σ := Unit) fmt (fun _ st => some st) doc cfg fuel schemaOrigin ()).map
    (fun p => p.1)

/-! ## Concrete fixtures used by the theorems below. -/

/-- The default configuration literal of `convertToType`:
`deep: true, defaultType: unknown, commentStyle: line, preText: empty`. -/
def defaultConfig : Schema2TypeOptions := ⟨true, some "unknown", some "line", some ""⟩

/-- The schema `\x7btype: "string"\x7d`. -/
def strSchema : Node := .obj (some "string") none none none none none none none false

/-- The §8 scenario object schema: `type: object`, `required: ["id"]`,
properties `id : integer` and `note : string (deprecated)`. -/
def scenarioObjectSchema : Node :=
  .obj (some "object") none none
    (some [("id", .obj (some "integer") none none none none none none none false),
           ("note", .obj (some "string") none none none none none none none true)])
    (some ["id"]) none none none false

/-- The §8 scenario array schema: array of an object with one property
`x : number`. -/
def arrayOfObjectSchema : Node :=
  .obj (some "array") none none none none
    (some (.inr (.obj (some "object") none none
      (some [("x", .obj (some "number") none none none none none none none false)])
      none none none none false))) none none false

/-- An array schema whose `items` is the tuple `[string, number]`. -/
def tupleStrNum : Node :=
  .obj (some "array") none none none none
    (some (.inl [.obj (some "string") none none none none none none none false,
                 .obj (some "number") none none none none none none none false]))
    none none false

/-- A schema whose declared type is the unrecognized string `file`. -/
def fileTypeSchema : Node := .obj (some "file") none none none none none none none false

/-- An identity stand-in for the external pretty-printer. -/
def idFmt : String → String := fun s => s

/-- Pointer to the schema named `A`. -/
def ptrA : String := "#/components/schemas/A"

/-- Pointer to the schema named `B`. -/
def ptrB : String := "#/components/schemas/B"

/-- Schema `A`: an object whose property `b` references `B`. -/
def nodeA : Node := .obj (some "object") none none (some [("b", .ref ptrB)]) none none none none false

/-- Schema `B`: an object whose property `a` references `A`. -/
def nodeB : Node := .obj (some "object") none none (some [("a", .ref ptrA)]) none none none none false

/-- The cyclic document: `A` references `B` and `B` references `A`. -/
def docAB : OApiDoc := [(ptrA, nodeA), (ptrB, nodeB)]

/-- Collector options with `deep: true` and a reference sink installed. -/
def optsDeepSink : JsonSchema2TsOptions := ⟨false, true, true⟩

/-- Collector options with `deep` unset and a reference sink installed. -/
def optsShallowSink : JsonSchema2TsOptions := ⟨false, false, true⟩

/-- An acyclic document holding just the schema named `B` (a string). -/
def docW : OApiDoc := [(ptrB, strSchema)]

/-- The call-time contract of one sink invocation: the memo, at the moment
the sink was called, maps the passed name to the passed declaration text. -/
def goodEvent (e : SinkEvent) : Prop := memoLookup e.memoAt e.name = some e.text

instance (e : SinkEvent) : Decidable (goodEvent e) := by
  unfold goodEvent; infer_instance

/-! ## Claim theorems. -/

/-- C7: the object schema `\x7btype: object, required: [id],
properties: \x7bid: integer, note: string (deprecated)\x7b\x7d\x7d` rendered
with `commentStyle: line` produces a body whose lines are, in order: the
opening brace, a `// [required]` comment line, `id: number;` with no
optional marker, a `// [deprecated]` comment line, `note?: string;`, and
the closing brace. -/
theorem c7_object_scenario :
    typeOf 10 scenarioObjectSchema [] defaultConfig =
      some "\x7b\n // [required]\n id: number;\n // [deprecated]\n note?: string;\n\x7d" ∧
    (typeOf 10 scenarioObjectSchema [] defaultConfig).map (jsSplit "\n") =
      some ["\x7b", " // [required]", " id: number;", " // [deprecated]", " note?: string;",
            "\x7d"] := by
  constructor
  · decide
  · decide

/-- C8: every non-enum object node with zero declared properties (the
`properties` field absent or the empty record) renders as the literal
`object`, never as empty braces; holds for every document, configuration
and remaining metadata. -/
theorem c8_empty_object (n : Nat) (doc : OApiDoc) (cfg : Schema2TypeOptions)
    (oneOf : Option (List Node)) (props : Option (List (String × Node)))
    (req : Option (List String)) (items : Option (Sum (List Node) Node))
    (title descr : Option String) (dep : Bool)
    (h : props = none ∨ props = some []) :
    typeOf (n + 4) (.obj (some "object") none oneOf props req items title descr dep) doc cfg =
      some "object" := by
  rcases h with h | h <;> subst h <;>
    simp [typeOf, parseSchema, parseSchemaBody, parseObject, parseProps, Node.enum, Node.type,
      Node.properties, Node.required, jsJoin]

/-- C8 witness: the empty object schema at concrete fuel renders as
`object`. -/
theorem c8_witness :
    (none = (none : Option (List (String × Node))) ∨
      none = some ([] : List (String × Node))) ∧
    typeOf 4 (.obj (some "object") none none none none none none none false) [] defaultConfig =
      some "object" :=
  ⟨Or.inl rfl, c8_empty_object 0 [] defaultConfig none none none none none none false (Or.inl rfl)⟩

/-- C5: a schema node that declares an enumeration renders as the enum's
values serialized by `JSON.stringify`, in declaration order, joined by
a pipe separator, whatever the declared `type` is (enum dispatch wins);
an empty enumeration renders as the empty string, and
`\x7benum: ["a","b"]\x7d` renders as the two quoted literals. -/
theorem c5_enum_rendering :
    (∀ (n : Nat) (doc : OApiDoc) (cfg : Schema2TypeOptions) (ty : Option String)
      (vs : List JsonValue) (oneOf : Option (List Node))
      (props : Option (List (String × Node))) (req : Option (List String))
      (items : Option (Sum (List Node) Node)) (title descr : Option String) (dep : Bool),
      typeOf (n + 2) (.obj ty (some vs) oneOf props req items title descr dep) doc cfg =
        some (jsJoin " | " (vs.map jsStringify))) ∧
    typeOf 2 (.obj none (some [.str "a", .str "b"]) none none none none none none false) []
        defaultConfig = some "\"a\" | \"b\"" ∧
    typeOf 2 (.obj (some "string") (some []) none none none none none none false) []
        defaultConfig = some "" := by
  refine ⟨?_, by decide, by decide⟩
  intro n doc cfg ty vs oneOf props req items title descr dep
  simp [typeOf, parseSchema, parseSchemaBody, parseEnum, Node.enum]

/-- C4: on the tuple-form array schema `\x7btype: array, items: [string,
number]\x7d` the code emits a stray comma between the elements (the mapped
array is coerced to a string inside the template literal, which joins with
commas), so the second element's line begins with `,`; the claim's
separator-free tuple rendering is violated. -/
theorem c4_tuple_rendering_bug :
    typeOf 10 tupleStrNum [] defaultConfig = some "[\nstring,\n,number,\n\n]" ∧
    (typeOf 10 tupleStrNum [] defaultConfig).map (jsSplit "\n") =
      some ["[", "string,", ",number,", "", "]"] ∧
    typeOf 10 tupleStrNum [] defaultConfig ≠ some "[\nstring,\nnumber,\n\n]" := by
  refine ⟨by decide, by decide, by decide⟩

/-- C3 counterexample: a non-reference node with no enum and no `oneOf`
whose declared type is the unrecognized string `file` renders as the
verbatim text `file`, not as the configured default type `unknown`. -/
theorem c3_counterexample :
    typeOf 2 fileTypeSchema [] defaultConfig = some "file" ∧
    defaultConfig.defaultType = some "unknown" ∧
    typeOf 2 fileTypeSchema [] defaultConfig ≠ some "unknown" := by
  refine ⟨by decide, by decide, by decide⟩

/-- C3 amended: for a non-reference, non-enum, non-`oneOf` node the
fallback to the configured `defaultType` applies when the declared type is
absent or the empty string, while an unrecognized non-empty type string is
returned verbatim (the `type || defaultType` truthiness test). -/
theorem c3_fallback_amended :
    (∀ (n : Nat) (doc : OApiDoc) (cfg : Schema2TypeOptions)
      (props : Option (List (String × Node))) (req : Option (List String))
      (items : Option (Sum (List Node) Node)) (title descr : Option String) (dep : Bool),
      typeOf (n + 2) (.obj none none none props req items title descr dep) doc cfg =
        some (cfg.defaultType.getD "unknown")) ∧
    (∀ (n : Nat) (doc : OApiDoc) (cfg : Schema2TypeOptions) (t : String)
      (props : Option (List (String × Node))) (req : Option (List String))
      (items : Option (Sum (List Node) Node)) (title descr : Option String) (dep : Bool),
      t ∉ (["object", "array", "string", "number", "integer", "boolean", "null"] :
          List String) →
      t ≠ "" →
      typeOf (n + 2) (.obj (some t) none none props req items title descr dep) doc cfg =
        some t) ∧
    (∀ (n : Nat) (doc : OApiDoc) (cfg : Schema2TypeOptions)
      (props : Option (List (String × Node))) (req : Option (List String))
      (items : Option (Sum (List Node) Node)) (title descr : Option String) (dep : Bool),
      typeOf (n + 2) (.obj (some "") none none props req items title descr dep) doc cfg =
        some (cfg.defaultType.getD "unknown")) := by
  refine ⟨?_, ?_, ?_⟩
  · intro n doc cfg props req items title descr dep
    simp [typeOf, parseSchema, parseSchemaBody, Node.enum, Node.type, Node.oneOf]
  · intro n doc cfg t props req items title descr dep hmem hne
    simp only [List.mem_cons, List.not_mem_nil, or_false, not_or] at hmem
    obtain ⟨h1, h2, h3, h4, h5, h6, h7⟩ := hmem
    simp [typeOf, parseSchema, parseSchemaBody, Node.enum, Node.type, Node.oneOf,
      h1, h2, h3, h4, h5, h6, h7, hne]
  · intro n doc cfg props req items title descr dep
    simp [typeOf, parseSchema, parseSchemaBody, Node.enum, Node.type, Node.oneOf]

/-- C3 witness: the amended statement applied at the unrecognized type
`file`. -/
theorem c3_witness :
    ("file" ∉ (["object", "array", "string", "number", "integer", "boolean", "null"] :
        List String)) ∧ "file" ≠ "" ∧
    typeOf 2 (.obj (some "file") none none none none none none none false) [] defaultConfig =
      some "file" :=
  ⟨by decide, by decide,
    c3_fallback_amended.2.1 0 [] defaultConfig "file" none none none none none false
      (by decide) (by decide)⟩

/-- C2 counterexample: on a formatter output that does not contain the
`type Ts = ` pattern, `convertToType` does not fail; it silently returns
the empty string. -/
theorem c2_counterexample :
    extractTypeTs ((fun _ => "const x = 1") ("type Ts = string")) = none ∧
    convertToTypeRun (fun _ => "const x = 1") 2 (some strSchema) [] defaultConfig = some "" ∧
    convertToTypeRun (fun _ => "const x = 1") 2 (some strSchema) [] defaultConfig ≠ none := by
  refine ⟨by decide, by decide, by decide⟩

/-- C2 amended: whenever the pretty-printer's output lacks the expected
`type Ts = ` extraction pattern, `convertToType` succeeds with the empty
string (the unmatched extraction defaults to the empty text), for every
formatter, schema, document and configuration. -/
theorem c2_unmatched_returns_empty (fmt : String → String) (n : Nat) (x : Node)
    (doc : OApiDoc) (cfg : Schema2TypeOptions) (T : String)
    (hparse : typeOf n x doc cfg = some T)
    (hmiss : extractTypeTs (fmt ("type Ts = " ++ T)) = none) :
    convertToTypeRun fmt n (some x) doc cfg = some "" := by
  unfold typeOf at hparse
  rcases hps : parseSchema (σ := Unit) (fun _ st => some st) doc cfg n x () with _ | ⟨T', u⟩
  · rw [hps] at hparse; simp at hparse
  · rw [hps] at hparse
    obtain rfl : T' = T := by simpa using hparse
    unfold convertToTypeRun convertToType
    simp only [hps, hmiss]
    rfl

/-- C2 witness: the amended statement at a formatter that returns an
unrelated text. -/
theorem c2_witness :
    typeOf 2 strSchema [] defaultConfig = some "string" ∧
    extractTypeTs ((fun _ => "const x = 1") ("type Ts = " ++ "string")) = none ∧
    convertToTypeRun (fun _ => "const x = 1") 2 (some strSchema) [] defaultConfig = some "" :=
  ⟨by decide, by decide,
    c2_unmatched_returns_empty (fun _ => "const x = 1") 2 strSchema [] defaultConfig "string"
      (by decide) (by decide)⟩

/-- C6: for an array node whose single `items` schema is a non-reference
node, the wrapping is chosen by that item's shape — `object` items as
`Array<T>`, `array` items as `T[]`, items with `oneOf` or `enum` as
`(T)[]`, everything else as `T[]` (the `arrayWrap` rule, spelled out in
the second conjunct); in particular the §8 array-of-object scenario
renders with the `Array<...>` form. -/
theorem c6_array_wrapping :
    (∀ (n : Nat) (doc : OApiDoc) (cfg : Schema2TypeOptions) (T : String)
      (ti : Option String) (ei : Option (List JsonValue)) (oi : Option (List Node))
      (pri : Option (List (String × Node))) (ri : Option (List String))
      (ii : Option (Sum (List Node) Node)) (tli dei : Option String) (dpi : Bool)
      (oA : Option (List Node)) (pA : Option (List (String × Node)))
      (rA : Option (List String)) (tA dA : Option String) (depA : Bool),
      typeOf n (.obj ti ei oi pri ri ii tli dei dpi) doc cfg = some T →
      typeOf (n + 4)
          (.obj (some "array") none oA pA rA
            (some (.inr (.obj ti ei oi pri ri ii tli dei dpi))) tA dA depA) doc cfg =
        some (arrayWrap (.obj ti ei oi pri ri ii tli dei dpi) T)) ∧
    (∀ (i : Node) (t : String),
      arrayWrap i t =
        if i.type = some "object" then "Array<" ++ t ++ ">"
        else if i.type = some "array" then t ++ "[]"
        else if i.oneOf.isSome || i.enum.isSome then "(" ++ t ++ ")[]"
        else t ++ "[]") ∧
    typeOf 10 arrayOfObjectSchema [] defaultConfig = some "Array<\x7b\n x?: number;\n\x7d>" := by
  refine ⟨?_, fun i t => rfl, by decide⟩
  intro n doc cfg T ti ei oi pri ri ii tli dei dpi oA pA rA tA dA depA h
  unfold typeOf at h ⊢
  rcases hps : parseSchema (σ := Unit) (fun _ st => some st) doc cfg n
      (.obj ti ei oi pri ri ii tli dei dpi) () with _ | ⟨T', u⟩
  · rw [hps] at h; simp at h
  · rw [hps] at h
    obtain rfl : T' = T := by simpa using h
    cases u
    simp [parseSchema, parseSchemaBody, parseArray, parseArrayItem, Node.enum, Node.type,
      Node.items, hps]

/-- C6 witness: the array-of-object scenario instantiates the general
wrapping statement. -/
theorem c6_witness :
    typeOf 6
        (.obj (some "object") none none
          (some [("x", .obj (some "number") none none none none none none none false)])
          none none none none false) [] defaultConfig = some "\x7b\n x?: number;\n\x7d" ∧
    typeOf 10
        (.obj (some "array") none none none none
          (some (.inr (.obj (some "object") none none
            (some [("x", .obj (some "number") none none none none none none none false)])
            none none none none false))) none none false) [] defaultConfig =
      some (arrayWrap
        (.obj (some "object") none none
          (some [("x", .obj (some "number") none none none none none none none false)])
          none none none none false) "\x7b\n x?: number;\n\x7d") :=
  ⟨by decide,
    c6_array_wrapping.1 6 [] defaultConfig "\x7b\n x?: number;\n\x7d"
      (some "object") none none
      (some [("x", .obj (some "number") none none none none none none none false)])
      none none none none false none none none none none false (by decide)⟩

/-- C10: with `deep` set, an array node whose single `items` value is a
reference resolves it before recursing, so the observer receives no
notification for that reference — the final log of the array node is
exactly the final log of parsing the resolved item (first conjunct);
with `deep` unset the array branch notifies exactly once (second
conjunct); by contrast, `parseSchema`'s own reference dispatch always
notifies the observer before the deep test (third and fourth conjuncts). -/
theorem c10_array_ref_observer :
    (∀ (n : Nat) (doc : OApiDoc) (cfg : Schema2TypeOptions) (r : String) (S : Node)
      (T : String) (log log' : List String)
      (oA : Option (List Node)) (pA : Option (List (String × Node)))
      (rA : Option (List String)) (tA dA : Option String) (depA : Bool),
      cfg.deep = true →
      findByRef doc r = some S →
      parseSchema logRef doc cfg n S log = some (T, log') →
      typeOfLog (n + 4)
          (.obj (some "array") none oA pA rA (some (.inr (.ref r))) tA dA depA) doc cfg log =
        some (arrayWrap S T, log')) ∧
    (∀ (n : Nat) (doc : OApiDoc) (cfg : Schema2TypeOptions) (r : String) (log : List String)
      (oA : Option (List Node)) (pA : Option (List (String × Node)))
      (rA : Option (List String)) (tA dA : Option String) (depA : Bool),
      cfg.deep = false →
      typeOfLog (n + 3)
          (.obj (some "array") none oA pA rA (some (.inr (.ref r))) tA dA depA) doc cfg log =
        some (getRefName r ++ "[]", log ++ [r])) ∧
    (∀ (n : Nat) (doc : OApiDoc) (cfg : Schema2TypeOptions) (r : String) (S : Node)
      (log : List String),
      cfg.deep = true →
      findByRef doc r = some S →
      parseSchema logRef doc cfg (n + 1) (.ref r) log =
        parseSchemaBody logRef doc cfg n S (log ++ [r])) ∧
    (∀ (n : Nat) (doc : OApiDoc) (cfg : Schema2TypeOptions) (r : String) (log : List String),
      cfg.deep = false →
      parseSchema logRef doc cfg (n + 1) (.ref r) log = some (getRefName r, log ++ [r])) := by
  refine ⟨?_, ?_, ?_, ?_⟩
  · intro n doc cfg r S T log log' oA pA rA tA dA depA hdeep hfind hps
    simp [typeOfLog, parseSchema, parseSchemaBody, parseArray, parseArrayItem, Node.enum,
      Node.type, Node.items, hdeep, hfind, hps]
  · intro n doc cfg r log oA pA rA tA dA depA hdeep
    simp [typeOfLog, parseSchema, parseSchemaBody, parseArray, Node.enum, Node.type,
      Node.items, hdeep, logRef]
  · intro n doc cfg r S log hdeep hfind
    simp [parseSchema, hdeep, hfind, logRef]
  · intro n doc cfg r log hdeep
    simp [parseSchema, hdeep, logRef]

/-- C10 witness: on a one-entry document, with `deep` set, the array of a
reference to a string schema notifies nothing beyond the item's own parse
(whose log stays empty), while the claim's contrasting branches are
closed instances of the theorem. -/
theorem c10_witness :
    ((⟨true, some "unknown", some "line", some ""⟩ : Schema2TypeOptions).deep = true) ∧
    findByRef docW ptrB = some strSchema ∧
    parseSchema logRef docW ⟨true, some "unknown", some "line", some ""⟩ 2 strSchema [] =
      some ("string", []) ∧
    typeOfLog 6 (.obj (some "array") none none none none (some (.inr (.ref ptrB)))
        none none false) docW ⟨true, some "unknown", some "line", some ""⟩ [] =
      some (arrayWrap strSchema "string", []) :=
  ⟨rfl, rfl, by decide,
    c10_array_ref_observer.1 2 docW ⟨true, some "unknown", some "line", some ""⟩ ptrB
      strSchema "string" [] [] none none none none none false rfl rfl (by decide)⟩

/-- `Map.set` followed by `Map.get` at the same key yields the stored
value. -/
theorem memoLookup_memoSet_self (m : List (String × String)) (k v : String) :
    memoLookup (memoSet m k v) k = some v := by
  induction m with
  | nil => simp [memoSet, memoLookup]
  | cons kv rest ih =>
    obtain ⟨k1, v1⟩ := kv
    by_cases hk : k1 = k
    · subst hk; simp [memoSet, memoLookup]
    · simp [memoSet, memoLookup, hk, ih]

/-- Any state predicate preserved by the observer is preserved by every
engine function: the engine's only effects on the observer state are the
observer invocations themselves. -/
theorem engine_preserves {σ : Type} (onRef : String → σ → Option σ) (doc : OApiDoc)
    (cfg : Schema2TypeOptions) (P : σ → Prop)
    (hRef : ∀ r s s', onRef r s = some s' → P s → P s') :
    ∀ n : Nat,
      (∀ x st out st', parseSchema onRef doc cfg n x st = some (out, st') → P st → P st') ∧
      (∀ x st out st', parseSchemaBody onRef doc cfg n x st = some (out, st') → P st → P st') ∧
      (∀ xs st out st', parseList onRef doc cfg n xs st = some (out, st') → P st → P st') ∧
      (∀ x st out st', parseObject onRef doc cfg n x st = some (out, st') → P st → P st') ∧
      (∀ req xs st out st',
        parseProps onRef doc cfg n req xs st = some (out, st') → P st → P st') ∧
      (∀ x st out st', parseArray onRef doc cfg n x st = some (out, st') → P st → P st') ∧
      (∀ x st out st', parseArrayItem onRef doc cfg n x st = some (out, st') → P st → P st') := by
  intro n
  induction n with
  | zero =>
    refine ⟨?_, ?_, ?_, ?_, ?_, ?_, ?_⟩
    · intro x st out st' h _; simp [parseSchema] at h
    · intro x st out st' h _; simp [parseSchemaBody] at h
    · intro xs st out st' h _; simp [parseList] at h
    · intro x st out st' h _; simp [parseObject] at h
    · intro req xs st out st' h _; simp [parseProps] at h
    · intro x st out st' h _; simp [parseArray] at h
    · intro x st out st' h _; simp [parseArrayItem] at h
  | succ n ih =>
    obtain ⟨ihS, ihB, ihL, ihO, ihP, ihA, ihI⟩ := ih
    refine ⟨?_, ?_, ?_, ?_, ?_, ?_, ?_⟩
    · -- parseSchema
      intro x st out st' h hP
      cases x with
      | ref r =>
        simp only [parseSchema] at h
        rcases hr : onRef r st with _ | st1
        · rw [hr] at h; simp at h
        · rw [hr] at h
          have hP1 := hRef r st st1 hr hP
          cases hd : cfg.deep with
          | false => simp [hd] at h; obtain ⟨-, rfl⟩ := h; exact hP1
          | true =>
            simp only [hd, if_true] at h
            rcases hf : findByRef doc r with _ | node
            · rw [hf] at h; simp at h
            · rw [hf] at h
              exact ihB node st1 out st' h hP1
      | obj t e o p r i ti de dep =>
        exact ihB _ st out st' h hP
    · -- parseSchemaBody
      intro x st out st' h hP
      cases x with
      | ref r =>
        simp only [parseSchemaBody, Node.enum, Node.type, Node.oneOf] at h
        obtain ⟨-, rfl⟩ := h
        exact hP
      | obj t e o p r i ti de dep =>
        simp only [parseSchemaBody, Node.enum, Node.type, Node.oneOf] at h
        rcases e with _ | vs
        · simp only at h
          split at h
          · exact ihO _ _ _ _ h hP
          · split at h
            · exact ihA _ _ _ _ h hP
            · split at h
              · simp at h; obtain ⟨-, rfl⟩ := h; exact hP
              · split at h
                · simp at h; obtain ⟨-, rfl⟩ := h; exact hP
                · split at h
                  · simp at h; obtain ⟨-, rfl⟩ := h; exact hP
                  · split at h
                    · simp at h; obtain ⟨-, rfl⟩ := h; exact hP
                    · rcases o with _ | branches
                      · simp only at h
                        rcases t with _ | ty
                        · simp at h; obtain ⟨-, rfl⟩ := h; exact hP
                        · simp at h; obtain ⟨-, rfl⟩ := h; exact hP
                      · simp only at h
                        rcases hl : parseList onRef doc cfg n branches st with _ | ⟨ts, st1⟩
                        · rw [hl] at h; simp at h
                        · rw [hl] at h; simp at h
                          obtain ⟨-, rfl⟩ := h
                          exact ihL _ _ _ _ hl hP
        · simp at h; obtain ⟨-, rfl⟩ := h; exact hP
    · -- parseList
      intro xs st out st' h hP
      cases xs with
      | nil => simp only [parseList] at h; simp at h; obtain ⟨-, rfl⟩ := h; exact hP
      | cons y ys =>
        simp only [parseList] at h
        rcases h1 : parseSchema onRef doc cfg n y st with _ | ⟨ty, st1⟩
        · rw [h1] at h; simp at h
        · simp only [h1] at h
          rcases h2 : parseList onRef doc cfg n ys st1 with _ | ⟨ts, st2⟩
          · simp [h2] at h
          · simp [h2] at h
            obtain ⟨-, rfl⟩ := h
            exact ihL _ _ _ _ h2 (ihS _ _ _ _ h1 hP)
    · -- parseObject
      intro x st out st' h hP
      simp only [parseObject] at h
      rcases h1 : parseProps onRef doc cfg n (x.required.getD []) (x.properties.getD []) st
        with _ | ⟨pl, st1⟩
      · rw [h1] at h; simp at h
      · rw [h1] at h; simp at h
        obtain ⟨-, rfl⟩ := h
        exact ihP _ _ _ _ _ h1 hP
    · -- parseProps
      intro req xs st out st' h hP
      cases xs with
      | nil => simp only [parseProps] at h; simp at h; obtain ⟨-, rfl⟩ := h; exact hP
      | cons kv rest =>
        obtain ⟨key, vo⟩ := kv
        simp only [parseProps] at h
        cases vo with
        | ref r =>
          rcases hf : findByRef doc r with _ | value
          · simp [hf] at h
          · simp only [hf] at h
            rcases hs : parseSchema onRef doc cfg n (Node.ref r) st with _ | ⟨ty, st1⟩
            · simp [hs] at h
            · simp only [hs] at h
              rcases hrest : parseProps onRef doc cfg n req rest st1 with _ | ⟨lines, st2⟩
              · simp [hrest] at h
              · simp [hrest] at h
                obtain ⟨-, rfl⟩ := h
                exact ihP _ _ _ _ _ hrest (ihS _ _ _ _ hs hP)
        | obj t e o p rq i ti de dep =>
          simp only [] at h
          rcases hs : parseSchema onRef doc cfg n (Node.obj t e o p rq i ti de dep) st
            with _ | ⟨ty, st1⟩
          · simp [hs] at h
          · simp only [hs] at h
            rcases hrest : parseProps onRef doc cfg n req rest st1 with _ | ⟨lines, st2⟩
            · simp [hrest] at h
            · simp [hrest] at h
              obtain ⟨-, rfl⟩ := h
              exact ihP _ _ _ _ _ hrest (ihS _ _ _ _ hs hP)
    · -- parseArray
      intro x st out st' h hP
      simp only [parseArray] at h
      cases x with
      | ref r => simp only [Node.items] at h; simp at h; obtain ⟨-, rfl⟩ := h; exact hP
      | obj t e o p rq i ti de dep =>
        simp only [Node.items] at h
        rcases i with _ | s
        · simp at h; obtain ⟨-, rfl⟩ := h; exact hP
        · rcases s with elems | item
          · simp only [] at h
            rcases h1 : parseList onRef doc cfg n elems st with _ | ⟨ts, st1⟩
            · simp [h1] at h
            · simp [h1] at h
              obtain ⟨-, rfl⟩ := h
              exact ihL _ _ _ _ h1 hP
          · cases item with
            | ref r =>
              simp only [] at h
              cases hd : cfg.deep with
              | true =>
                simp only [hd, if_true] at h
                rcases hf : findByRef doc r with _ | resolved
                · simp [hf] at h
                · simp only [hf] at h
                  exact ihI _ _ _ _ h hP
              | false =>
                simp only [hd, Bool.false_eq_true, if_false] at h
                rcases hr : onRef r st with _ | st1
                · simp [hr] at h
                · simp [hr] at h
                  obtain ⟨-, rfl⟩ := h
                  exact hRef _ _ _ hr hP
            | obj it te oe pe re ie tie dee depe =>
              exact ihI _ _ _ _ h hP
    · -- parseArrayItem
      intro x st out st' h hP
      simp only [parseArrayItem] at h
      rcases h1 : parseSchema onRef doc cfg n x st with _ | ⟨ty, st1⟩
      · rw [h1] at h; simp at h
      · rw [h1] at h; simp at h
        obtain ⟨-, rfl⟩ := h
        exact ihS _ _ _ _ h1 hP

/-- `convertToType` preserves any observer-preserved state predicate. -/
theorem convertToType_preserves {σ : Type} (fmt : String → String)
    (onRef : String → σ → Option σ) (doc : OApiDoc) (cfg : Schema2TypeOptions)
    (P : σ → Prop) (hRef : ∀ r s s', onRef r s = some s' → P s → P s')
    (n : Nat) (x : Option Node) (st : σ) (out : String) (st' : σ)
    (h : convertToType fmt onRef doc cfg n x st = some (out, st')) (hP : P st) : P st' := by
  unfold convertToType at h
  cases x with
  | none => simp at h; obtain ⟨-, rfl⟩ := h; exact hP
  | some sch =>
    rcases hs : parseSchema onRef doc cfg n sch st with _ | ⟨tsStr, st1⟩
    · simp [hs] at h
    · simp [hs] at h
      obtain ⟨-, rfl⟩ := h
      exact (engine_preserves onRef doc cfg P hRef n).1 _ _ _ _ hs hP

/-- C9: store-before-notify.  First conjunct: across any collector run,
every reference-sink invocation (recorded with the memo contents at the
moment of the call) sees the memo already mapping the passed name to the
passed declaration text.  Second conjunct: when the name is already in the
memo, the installed callback passes the cached text to the sink without
invoking the recursive expansion and without changing the memo. -/
theorem c9_store_before_notify :
    (∀ (fmt : String → String) (doc : OApiDoc) (opts : JsonSchema2TsOptions) (n : Nat)
      (x : Node) (name : String) (st : CState) (out : String) (st' : CState),
      (∀ e ∈ st.events, goodEvent e) →
      jsonSchema2TsStr fmt doc opts n x name st = some (out, st') →
      ∀ e ∈ st'.events, goodEvent e) ∧
    (∀ (doc : OApiDoc) (opts : JsonSchema2TsOptions)
      (recur : Node → String → CState → Option (String × CState)) (r : String)
      (s : CState) (txt : String),
      opts.hasSink = true →
      memoLookup s.memo (getRefName r) = some txt →
      collectorOnRef doc opts recur r s =
        some ⟨s.memo, s.events ++ [⟨getRefName r, txt, s.memo⟩]⟩) := by
  constructor
  · intro fmt doc opts n
    induction n with
    | zero => intro x name st out st' hP h; simp [jsonSchema2TsStr] at h
    | succ n ih =>
      intro x name st out st' hP h
      simp only [jsonSchema2TsStr] at h
      have hRef : ∀ r s s',
          collectorOnRef doc opts (fun nd nm s => jsonSchema2TsStr fmt doc opts n nd nm s) r s =
            some s' →
          (∀ e ∈ s.events, goodEvent e) → (∀ e ∈ s'.events, goodEvent e) := by
        intro r s s' hr hPs
        unfold collectorOnRef at hr
        cases hsink : opts.hasSink with
        | false => simp [hsink] at hr; subst hr; exact hPs
        | true =>
          simp only [hsink, if_true] at hr
          rcases hml : memoLookup s.memo (getRefName r) with _ | cached
          · simp only [hml] at hr
            rcases hf : findByRef doc r with _ | resolved
            · simp [hf] at hr
            · simp only [hf] at hr
              rcases hrec : jsonSchema2TsStr fmt doc opts n resolved (getRefName r) s
                with _ | ⟨result, s1⟩
              · simp [hrec] at hr
              · simp only [hrec] at hr
                obtain rfl : (⟨memoSet s1.memo (getRefName r) result,
                    s1.events ++ [⟨getRefName r, result,
                      memoSet s1.memo (getRefName r) result⟩]⟩ : CState) = s' := by
                  simpa using hr
                have hPs1 := ih resolved (getRefName r) s result s1 hPs hrec
                intro e he
                simp only [List.mem_append, List.mem_singleton] at he
                rcases he with he | rfl
                · exact hPs1 e he
                · exact memoLookup_memoSet_self s1.memo (getRefName r) result
          · simp only [hml] at hr
            obtain rfl : (⟨s.memo, s.events ++ [⟨getRefName r, cached, s.memo⟩]⟩ : CState) =
                s' := by simpa using hr
            intro e he
            simp only [List.mem_append, List.mem_singleton] at he
            rcases he with he | rfl
            · exact hPs e he
            · exact hml
      rcases hc : convertToType fmt
          (collectorOnRef doc opts (fun nd nm s => jsonSchema2TsStr fmt doc opts n nd nm s))
          doc (collectorConfig opts) n (some x) st with _ | ⟨tsStr, st1⟩
      · simp [hc] at h
      · simp [hc] at h
        obtain ⟨-, rfl⟩ := h
        exact convertToType_preserves fmt _ doc (collectorConfig opts)
          (fun s => ∀ e ∈ s.events, goodEvent e) hRef n (some x) st tsStr st1 hc hP
  · intro doc opts recur r s txt hsink hml
    unfold collectorOnRef
    simp [hsink, hml]

/-- C9 witness: a concrete acyclic run (document containing the string
schema `B`, schema `A` referencing it, `deep` unset, sink installed) in
which the sink fires once; the invariant holds for its event history. -/
theorem c9_witness :
    (∀ e ∈ (⟨[], []⟩ : CState).events, goodEvent e) ∧
    jsonSchema2TsStr idFmt docW optsShallowSink 10 nodeA "A" ⟨[], []⟩ =
      some ("interface A \x7b\n b?: B;\n\x7d",
        ⟨[("B", "interface B string")],
         [⟨"B", "interface B string", [("B", "interface B string")]⟩]⟩) ∧
    (∀ e ∈ [(⟨"B", "interface B string", [("B", "interface B string")]⟩ : SinkEvent)],
      goodEvent e) :=
  ⟨by simp, by decide,
    c9_store_before_notify.1 idFmt docW optsShallowSink 10 nodeA "A" ⟨[], []⟩
      "interface A \x7b\n b?: B;\n\x7d"
      ⟨[("B", "interface B string")],
       [⟨"B", "interface B string", [("B", "interface B string")]⟩]⟩
      (by simp) (by decide)⟩

/-- On the cyclic document `docAB` the deep inline expansion never
terminates, whatever the observer does: every cycle of the mutual
recursion consumes fuel without completing, so the engine returns `none`
at every fuel.  This holds for any observer state type, any observer, and
any configuration with `deep` set. -/
theorem cyclic_engine_diverges {σ : Type} (onRef : String → σ → Option σ)
    (cfg : Schema2TypeOptions) (hdeep : cfg.deep = true) :
    ∀ (k : Nat) (st : σ),
      parseSchemaBody onRef docAB cfg k nodeA st = none ∧
      parseSchemaBody onRef docAB cfg k nodeB st = none ∧
      parseSchema onRef docAB cfg k nodeA st = none ∧
      parseSchema onRef docAB cfg k nodeB st = none := by
  intro k
  induction k using Nat.strong_induction_on with
  | _ k ih =>
    intro st
    have hrefB : ∀ (m : Nat), m + 1 ≤ k → ∀ (st0 : σ),
        parseSchema onRef docAB cfg (m + 1) (Node.ref ptrB) st0 = none := by
      intro m hm st0
      rcases hr : onRef ptrB st0 with _ | st1
      · simp [parseSchema, hr]
      · have hb := (ih m (by omega) st1).2.1
        have hfind : findByRef docAB ptrB = some nodeB := rfl
        simp [parseSchema, hr, hdeep, hfind, hb]
    have hrefA : ∀ (m : Nat), m + 1 ≤ k → ∀ (st0 : σ),
        parseSchema onRef docAB cfg (m + 1) (Node.ref ptrA) st0 = none := by
      intro m hm st0
      rcases hr : onRef ptrA st0 with _ | st1
      · simp [parseSchema, hr]
      · have hb := (ih m (by omega) st1).1
        have hfind : findByRef docAB ptrA = some nodeA := rfl
        simp [parseSchema, hr, hdeep, hfind, hb]
    refine ⟨?_, ?_, ?_, ?_⟩
    · rcases k with _ | _ | _ | _ | m
      · rfl
      · rfl
      · rfl
      · rfl
      · have hfind : findByRef docAB ptrB = some nodeB := rfl
        have h2 : ∀ (st0 : σ),
            parseProps onRef docAB cfg (m + 2) [] [("b", Node.ref ptrB)] st0 = none := by
          intro st0
          simp [parseProps, hfind, hrefB m (by omega) st0]
        have h3 : ∀ (st0 : σ),
            parseObject onRef docAB cfg (m + 3)
              (Node.obj (some "object") none none (some [("b", Node.ref ptrB)]) none none
                none none false) st0 = none := by
          intro st0
          simp [parseObject, Node.properties, Node.required, h2]
        show parseSchemaBody onRef docAB cfg (m + 4) nodeA st = none
        simp only [nodeA]
        simp [parseSchemaBody, Node.enum, Node.type, h3]
    · rcases k with _ | _ | _ | _ | m
      · rfl
      · rfl
      · rfl
      · rfl
      · have hfind : findByRef docAB ptrA = some nodeA := rfl
        have h2 : ∀ (st0 : σ),
            parseProps onRef docAB cfg (m + 2) [] [("a", Node.ref ptrA)] st0 = none := by
          intro st0
          simp [parseProps, hfind, hrefA m (by omega) st0]
        have h3 : ∀ (st0 : σ),
            parseObject onRef docAB cfg (m + 3)
              (Node.obj (some "object") none none (some [("a", Node.ref ptrA)]) none none
                none none false) st0 = none := by
          intro st0
          simp [parseObject, Node.properties, Node.required, h2]
        show parseSchemaBody onRef docAB cfg (m + 4) nodeB st = none
        simp only [nodeB]
        simp [parseSchemaBody, Node.enum, Node.type, h3]
    · rcases k with _ | m
      · rfl
      · exact (ih m (by omega) st).1
    · rcases k with _ | m
      · rfl
      · exact (ih m (by omega) st).2.1

/-- C1: on the cyclic document where `A` references `B` and `B` references
`A`, the Collector called on `A` with `deep` set, a sink installed and an
empty memo produces no result at any recursion budget — the memo is
consulted only before a named expansion that has already completed, and
the deep inline expansion never consults it at all, so the mutual
recursion never terminates (for every pretty-printer and every fuel the
fuel-indexed model returns `none`). -/
theorem c1_cyclic_deep_nonterminating :
    ∀ (fmt : String → String) (n : Nat),
      jsonSchema2TsStr fmt docAB optsDeepSink n nodeA "A" ⟨[], []⟩ = none := by
  intro fmt n
  rcases n with _ | n
  · rfl
  · have hdeep : (collectorConfig optsDeepSink).deep = true := rfl
    have hdiv := (cyclic_engine_diverges
      (collectorOnRef docAB optsDeepSink
        (fun nd nm s => jsonSchema2TsStr fmt docAB optsDeepSink n nd nm s))
      (collectorConfig optsDeepSink) hdeep n (⟨[], []⟩ : CState)).2.2.1
    simp only [jsonSchema2TsStr]
    unfold convertToType
    simp [hdiv]

end Schema2Type
